import Mathlib

/-!
gosigar: the `ss` example's inode resolver and the Windows load sampler

A shallow embedding of

* `examples/ss/ss.go`: `mapInodesToPid` and the row-printing loop of `sockets`;
* `sys/windows/load.go`: the summing loop and the return of `getLoadAverage`.

The operating system is an explicit parameter (`ProcFS` for the process
table), and the two library routines the resolver relies on,
`strconv.ParseUint` and `fmt.Sscanf`, are embedded as far as the calls in
`ss.go` exercise them.
-/

namespace Gosigar

/-! ## Go maps with `uint32` keys and `string` values -/

/-- A `map[uint32]string`, held as an association list without repeated keys;
the most recently written key comes first. -/
abbrev GoMap := List (Nat × String)

/-- The lookup `m[k]` together with its presence bit. -/
def GoMap.get (m : GoMap) (k : Nat) : Option String :=
  List.lookup k m

/-- The assignment `m[k] = v`: an older entry for `k` is replaced. -/
def GoMap.set (m : GoMap) (k : Nat) (v : String) : GoMap :=
  (k, v) :: m.filter (fun e => e.1 != k)

/-- The value of the index expression `m[k]`: the zero value `""` when `k` is absent. -/
def GoMap.index (m : GoMap) (k : Nat) : String :=
  (m.get k).getD ""

/-! ## `strconv.ParseUint(s, 10, bitSize)` -/

/-- The two error kinds of `strconv.ParseUint`. -/
inductive NumError where
  | badDigits
  | outOfRange
  deriving DecidableEq, Repr

/-- The constant `maxUint64/10 + 1` of `ParseUint` for base 10. -/
def cutoff10 : Nat := (2 ^ 64 - 1) / 10 + 1

/-- The digit loop of `ParseUint` in base 10 over the bytes of the string,
with the accumulator `n` a `uint64`. -/
def parseUintLoop (maxVal : Nat) : List Char → Nat → Except NumError Nat
  | [], n => .ok n
  | c :: cs, n =>
    if 48 ≤ c.toNat ∧ c.toNat ≤ 57 then
      let d := c.toNat - 48
      if n ≥ cutoff10 then .error .outOfRange
      else
        let n10 := (n * 10) % 2 ^ 64
        let n1 := (n10 + d) % 2 ^ 64
        if n1 < n10 ∨ n1 > maxVal then .error .outOfRange
        else parseUintLoop maxVal cs n1
    else .error .badDigits

/-- The call `strconv.ParseUint(s, 10, bitSize)` for `0 < bitSize ≤ 64`. -/
def parseUint (s : List Char) (bitSize : Nat) : Except NumError Nat :=
  if s = [] then .error .badDigits
  else parseUintLoop (2 ^ bitSize - 1) s 0

/-! ## `fmt.Sscanf(link, "socket:[%d]", &inode)` with `inode` a `uint32` -/

/-- The white-space table of package `fmt`. -/
def goIsSpace (c : Char) : Bool :=
  let r := c.toNat
  (9 ≤ r && r ≤ 13) || r == 32 || r == 0x85 || r == 0xa0 || r == 0x1680 ||
    (0x2000 ≤ r && r ≤ 0x200a) || r == 0x2028 || r == 0x2029 || r == 0x202f ||
    r == 0x205f || r == 0x3000

/-- The method `ss.SkipSpace` of a scanner made by `Sscanf` (where a newline is
not a space): `none` is the error "unexpected newline". -/
def skipSpace : List Char → Option (List Char)
  | [] => some []
  | c :: cs =>
    if c.toNat = 13 ∧ cs.head? = some (Char.ofNat 10) then skipSpace cs
    else if c.toNat = 10 then none
    else if goIsSpace c then skipSpace cs
    else some (c :: cs)

/-- The method `ss.advance` on a stretch of the format that holds neither a
space nor a percent sign: each format character has to be the next input rune;
`none` is "input does not match format" or "unexpected EOF". -/
def advance : List Char → List Char → Option (List Char)
  | [], inp => some inp
  | _ :: _, [] => none
  | f :: fs, c :: cs => if f = c then advance fs cs else none

/-- The constant `decimalDigits`, which `ss.getBase` hands to `scanNumber` for
the verb `%d`. -/
def decimalDigits : List Char := "0123456789".toList

/-- The method `ss.scanNumber(digits, false)`: the longest run of accepted
characters, which must not be empty; returns the token and the input left. -/
def scanNumber (digits : List Char) (inp : List Char) : Option (List Char × List Char) :=
  let tok := inp.takeWhile (fun c => digits.contains c)
  if tok = [] then none else some (tok, inp.dropWhile (fun c => digits.contains c))

/-- The method `ss.scanUint('d', bitSize)`: skip space, refuse the end of input,
scan the token, convert it with `ParseUint(tok, 10, 64)` and check that the
value survives truncation to `bitSize` bits. -/
def scanUint (bitSize : Nat) (inp : List Char) : Option (Nat × List Char) :=
  match skipSpace inp with
  | none => none
  | some inp1 =>
    if inp1 = [] then none
    else
      match scanNumber decimalDigits inp1 with
      | none => none
      | some (tok, rest) =>
        match parseUint tok 64 with
        | .error _ => none
        | .ok i =>
          let x := ((i <<< (64 - bitSize)) % 2 ^ 64) >>> (64 - bitSize)
          if x ≠ i then none else some (i, rest)

/-- The call `fmt.Sscanf(link, "socket:[%d]", &inode)` with `inode` a `uint32`:
`some inode` when it returns a nil error, `none` otherwise.  The loop of
`doScanf` matches the literal prefix, skips space before the verb, scans the
number and matches the closing bracket; input left after the bracket is not
looked at.  The scanner's cap of `2 ^ 30` runes is out of reach of a link
target and is left out. -/
def sscanfSocket (link : List Char) : Option Nat :=
  match advance "socket:[".toList link with
  | none => none
  | some r1 =>
    match skipSpace r1 with
    | none => none
    | some r2 =>
      match scanUint 32 r2 with
      | none => none
      | some (inode, r3) =>
        match advance "]".toList r3 with
        | none => none
        | some _ => some inode

/-! ## The process table as seen through `os.Open`, `Readdirnames` and `os.Readlink` -/

/-- What `(*os.File).Readdirnames(0)` returns: the names read so far and
whether it reported an error. -/
structure DirListing where
  names : List String
  failed : Bool
  deriving DecidableEq, Repr

/-- The file system the resolver runs against, one answer per path. -/
structure ProcFS where
  /-- Whether `os.Open(path)` returns a nil error. -/
  openOk : String → Bool
  /-- The answer of `Readdirnames(0)` on the directory opened at `path`. -/
  readdirnames : String → DirListing
  /-- The answer of `os.Readlink(path)`; `none` is an error. -/
  readlink : String → Option String

/-- The path `"/proc/" + pid + "/fd/"`. -/
def fdDirPath (pid : String) : String :=
  "/proc/" ++ pid ++ "/fd/"

/-- The variables of `mapInodesToPid` together with the file handles of the
process: `handles` lists the paths of the files that are open, `attempts` the
paths `os.Open` was called on, in call order. -/
structure ScanState where
  ret : GoMap
  handles : List String
  attempts : List String
  deriving DecidableEq, Repr

/-- The body of the loop `for _, fd := range fds`. -/
def fdStep (fs : ProcFS) (pid : String) (ret : GoMap) (fd : String) : GoMap :=
  match fs.readlink ("/proc/" ++ pid ++ "/fd/" ++ fd) with
  | none => ret
  | some link =>
    match sscanfSocket link.toList with
    | none => ret
    | some inode => ret.set inode pid

/-- The body of the loop `for _, pid := range dirContents`.  The handle
`pidDir` is opened and never closed. -/
def pidStep (fs : ProcFS) (st : ScanState) (pid : String) : ScanState :=
  match parseUint pid.toList 32 with
  | .error _ => st
  | .ok _ =>
    let path := fdDirPath pid
    if fs.openOk path then
      let st1 : ScanState :=
        { st with handles := path :: st.handles, attempts := st.attempts ++ [path] }
      let fds := fs.readdirnames path
      if fds.failed then st1
      else { st1 with ret := fds.names.foldl (fdStep fs pid) st1.ret }
    else { st with attempts := st.attempts ++ [path] }

/-- The slice `dirContents`: the names listed under `/proc`, kept also when the
listing reported an error; empty when `/proc` could not be opened, as
`Readdirnames` on a nil file returns no names. -/
def dirContents (fs : ProcFS) : List String :=
  if fs.openOk "/proc" then (fs.readdirnames "/proc").names else []

/-- The function `mapInodesToPid`, started with the open handles `h0`.  The
deferred `fd.Close()` releases the handle on `/proc` (and does nothing on a nil
file).  The two messages printed on a failure under `/proc` are left out. -/
def mapInodesToPidFrom (fs : ProcFS) (h0 : List String) : ScanState :=
  let rootOk := fs.openOk "/proc"
  let st0 : ScanState :=
    { ret := [], handles := if rootOk then "/proc" :: h0 else h0, attempts := ["/proc"] }
  let st1 := (dirContents fs).foldl (pidStep fs) st0
  { st1 with handles := if rootOk then st1.handles.erase "/proc" else st1.handles }

/-- The map returned by `mapInodesToPid`. -/
def mapInodesToPid (fs : ProcFS) : GoMap :=
  (mapInodesToPidFrom fs []).ret

/-! ### Vocabulary for the resolver's contract -/

/-- The entry `pid` is a candidate process identifier: `ParseUint(pid, 10, 32)`
returns a nil error. -/
def isCandidate (pid : String) : Bool :=
  match parseUint pid.toList 32 with
  | .ok _ => true
  | .error _ => false

/-- The descriptor directory of `pid` opens and lists without error. -/
def fdDirReadable (fs : ProcFS) (pid : String) : Bool :=
  fs.openOk (fdDirPath pid) && !(fs.readdirnames (fdDirPath pid)).failed

/-- The inode named by descriptor `fd` of `pid`, when its link resolves and
matches the socket pattern. -/
def linkInode (fs : ProcFS) (pid fd : String) : Option Nat :=
  match fs.readlink ("/proc/" ++ pid ++ "/fd/" ++ fd) with
  | none => none
  | some link => sscanfSocket link.toList

/-- The scanned process `pid` holds a socket link to inode `k`. -/
def holdsInode (fs : ProcFS) (k : Nat) (pid : String) : Bool :=
  isCandidate pid && fdDirReadable fs pid &&
    (fs.readdirnames (fdDirPath pid)).names.any (fun fd => linkInode fs pid fd == some k)

/-- The effect of one round of the outer loop on the map alone. -/
def retStep (fs : ProcFS) (ret : GoMap) (pid : String) : GoMap :=
  if isCandidate pid && fdDirReadable fs pid then
    (fs.readdirnames (fdDirPath pid)).names.foldl (fdStep fs pid) ret
  else ret

/-- The process table with every candidate process deleted whose descriptor
directory fails to open or to list, and every descriptor deleted whose link
fails to resolve. -/
def pruneFailures (fs : ProcFS) : ProcFS where
  openOk := fs.openOk
  readdirnames := fun path =>
    if path = "/proc" then
      { names := (fs.readdirnames path).names.filter
          (fun pid => !isCandidate pid || fdDirReadable fs pid),
        failed := (fs.readdirnames path).failed }
    else
      { names := (fs.readdirnames path).names.filter
          (fun fd => (fs.readlink (path ++ fd)).isSome),
        failed := (fs.readdirnames path).failed }
  readlink := fs.readlink

/-- The process table with every entry under `/proc` deleted whose name is not
a candidate process identifier. -/
def dropNonCandidates (fs : ProcFS) : ProcFS where
  openOk := fs.openOk
  readdirnames := fun path =>
    if path = "/proc" then
      { names := (fs.readdirnames path).names.filter isCandidate,
        failed := (fs.readdirnames path).failed }
    else fs.readdirnames path
  readlink := fs.readlink

/-- A process table with the processes `100`, holding descriptor `3` linked to
`socket:[555]` and descriptor `0` linked to a terminal, and `200`, holding
descriptor `0` only. -/
def exampleTable : ProcFS where
  openOk := fun _ => true
  readdirnames := fun path =>
    if path = "/proc" then { names := ["100", "200"], failed := false }
    else if path = "/proc/100/fd/" then { names := ["0", "3"], failed := false }
    else { names := ["0"], failed := false }
  readlink := fun path =>
    if path = "/proc/100/fd/3" then some "socket:[555]" else some "/dev/pts/0"

/-- A process table in which the processes `100` and `200`, listed in this
order, both hold descriptor `3` linked to `socket:[555]`, and process `300`,
listed last, holds descriptor `3` linked to a file. -/
def sharedTable : ProcFS where
  openOk := fun _ => true
  readdirnames := fun path =>
    if path = "/proc" then { names := ["100", "200", "300"], failed := false }
    else { names := ["3"], failed := false }
  readlink := fun path =>
    if path = "/proc/300/fd/3" then some "/var/log/syslog" else some "socket:[555]"

/-- A process table in which the descriptor directory of process `100` opens
but fails to list, process `150` has gone, descriptor `4` of process `200` fails
to resolve and its descriptor `3` links to `socket:[555]`. -/
def racyTable : ProcFS where
  openOk := fun path => path != "/proc/150/fd/"
  readdirnames := fun path =>
    if path = "/proc" then { names := ["100", "150", "200", "self"], failed := false }
    else if path = "/proc/100/fd/" then { names := ["3"], failed := true }
    else { names := ["3", "4"], failed := false }
  readlink := fun path =>
    if path = "/proc/200/fd/4" then none else some "socket:[555]"

/-- A process table with the single process `1` whose single descriptor `3`
links to `target`. -/
def oneLinkTable (target : String) : ProcFS where
  openOk := fun _ => true
  readdirnames := fun path =>
    if path = "/proc" then { names := ["1"], failed := false }
    else { names := ["3"], failed := false }
  readlink := fun _ => some target

/-- The byte `c` is one of the decimal digits `0` to `9`. -/
def isDecDigit (c : Char) : Bool :=
  decide (48 ≤ c.toNat ∧ c.toNat ≤ 57)

/-- The number written by the decimal digits `cs` after the digits worth `acc`. -/
def digitsValue (acc : Nat) (cs : List Char) : Nat :=
  cs.foldl (fun a c => a * 10 + (c.toNat - 48)) acc

/-- The names the words "parse as unsigned integers" describe when no width
is given: the non-empty runs of decimal digits. -/
def isUnsignedNumeral (name : String) : Bool :=
  !name.toList.isEmpty && name.toList.all isDecDigit

/-- A process table whose `/proc` lists `self`, `4294967296` and `4294967295`;
every directory opens and lists the descriptor `3`, which links to
`socket:[555]` under `4294967295` and to `socket:[666]` under the two others. -/
def wideNameTable : ProcFS where
  openOk := fun _ => true
  readdirnames := fun path =>
    if path = "/proc" then { names := ["self", "4294967296", "4294967295"], failed := false }
    else { names := ["3"], failed := false }
  readlink := fun path =>
    if path = "/proc/4294967295/fd/3" then some "socket:[555]" else some "socket:[666]"

/-- The link targets the words "of the form `socket:[<decimal-inode>]` with the
inode an unsigned 32-bit number" describe: the prefix `socket:[`, a non-empty
run of decimal digits worth less than `2 ^ 32`, the closing bracket, and
nothing else.  Returns the number. -/
def socketForm (t : List Char) : Option Nat :=
  match advance "socket:[".toList t with
  | none => none
  | some r =>
    let ds := r.takeWhile isDecDigit
    if ds ≠ [] ∧ r.dropWhile isDecDigit = "]".toList ∧ digitsValue 0 ds < 2 ^ 32 then
      some (digitsValue 0 ds)
    else none

/-- The link targets `Sscanf` accepts with the number `k`: the prefix
`socket:[`, any run of blanks other than a newline, a non-empty run of decimal
digits worth `k < 2 ^ 32`, the closing bracket, and then anything. -/
def SocketLinkShape (t : List Char) (k : Nat) : Prop :=
  ∃ ws ds rest : List Char,
    t = "socket:[".toList ++ ws ++ ds ++ "]".toList ++ rest ∧
    (∀ c ∈ ws, goIsSpace c = true ∧ c.toNat ≠ 10) ∧
    ds ≠ [] ∧ (∀ c ∈ ds, isDecDigit c = true) ∧ digitsValue 0 ds = k ∧ k < 2 ^ 32

/-! ## The listing loop of `sockets` -/

/-- The fields of a `linux.InetDiagMsg` that `sockets` prints; the two
addresses are kept as their bytes. -/
structure InetDiagMsg where
  State : Nat
  RQueue : Nat
  WQueue : Nat
  SrcIP : List Nat
  SrcPort : Nat
  DstIP : List Nat
  DstPort : Nat
  UID : Nat
  Inode : Nat
  deriving DecidableEq, Repr

/-- What `sockets` takes from package `sys/linux` and from `net`, which are not
part of the files at hand: the two request builders, the netlink exchange and
the renderings of a TCP state and of an address. -/
structure LinuxPkg where
  newInetDiagReq : List Nat
  newInetDiagReqV2 : Nat → List Nat
  netlinkInetDiagWithBuf : List Nat → Except String (List InetDiagMsg)
  tcpStateString : Nat → String
  ipString : List Nat → String

/-- The constant `linux.AF_INET`. -/
def AF_INET : Nat := 2

/-- The constant `linux.AF_INET6`. -/
def AF_INET6 : Nat := 10

/-- The command-line flags read by `sockets` and the outcome of opening the
dump file (`none` when `os.OpenFile` succeeds, otherwise its error). -/
structure Flags where
  ipv6 : Bool
  v1 : Bool
  diag : String
  diagOpenError : Option String

/-- The header line handed to the tab writer. -/
def headerLine : String :=
  String.intercalate "\t" ["State", "Recv-Q", "Send-Q", "Local Address:Port",
    "Remote Address:Port", "UID", "Inode", "PID/Program"] ++ "\n"

/-- The eight tab-separated cells of the line printed for one message by the
format `"%v\t%v\t%v\t%v:%v\t%v:%v\t%v\t%v\t%v\n"`; the last one is
`inodeToPid[diag.Inode]`. -/
def rowCells (lx : LinuxPkg) (inodeToPid : GoMap) (d : InetDiagMsg) : List String :=
  [lx.tcpStateString d.State, toString d.RQueue, toString d.WQueue,
   lx.ipString d.SrcIP ++ ":" ++ toString d.SrcPort,
   lx.ipString d.DstIP ++ ":" ++ toString d.DstPort,
   toString d.UID, toString d.Inode, inodeToPid.index d.Inode]

/-- The line printed for one message. -/
def rowLine (lx : LinuxPkg) (inodeToPid : GoMap) (d : InetDiagMsg) : String :=
  String.intercalate "\t" (rowCells lx inodeToPid d) ++ "\n"

/-- The function `sockets`: the error it returns and the lines it hands to the
tab writer, in order. -/
def sockets (lx : LinuxPkg) (flags : Flags) (fs : ProcFS) : Except String Unit × List String :=
  let af := if flags.ipv6 then AF_INET6 else AF_INET
  let req := if flags.v1 then lx.newInetDiagReq else lx.newInetDiagReqV2 af
  match (if flags.diag ≠ "" then flags.diagOpenError else none) with
  | some err => (.error err, [])
  | none =>
    match lx.netlinkInetDiagWithBuf req with
    | .error err => (.error err, [])
    | .ok msgs =>
      let inodeToPid := mapInodesToPid fs
      (.ok (), headerLine :: msgs.map (rowLine lx inodeToPid))

/-- A stand-in for the missing packages, for running `sockets` on examples. -/
def sampleLinux (msgs : List InetDiagMsg) : LinuxPkg where
  newInetDiagReq := [1]
  newInetDiagReqV2 := fun af => [2, af]
  netlinkInetDiagWithBuf := fun _ => .ok msgs
  tcpStateString := fun s => if s = 10 then "LISTEN" else "ESTAB"
  ipString := fun ip => String.intercalate "." (ip.map toString)

/-! ## `sys/windows/load.go`: the loop of `getLoadAverage` -/

/-- The struct `loadSample`; `Time` stands for `time.Time`. -/
structure loadSample (Time : Type) where
  timestamp : Time
  value : Int

/-- A Go `int` of 64 bits: the sum wraps around. -/
def wrapInt (x : Int) : Int :=
  (x + 2 ^ 63) % 2 ^ 64 - 2 ^ 63

/-- The loop of `getLoadAverage` (load.go:96-105): the pair `(total, count)`
after the samples.  The condition of the `if`, which the source writes
`sample.timestamp >= startTime` with `startTime` hanging on a `now` it does not
declare, is the parameter `inWindow`; nothing is assumed about it. -/
def sumWindow {Time : Type} (inWindow : loadSample Time → Bool)
    (samples : List (loadSample Time)) : Int × Nat :=
  samples.foldl
    (fun acc sample =>
      if inWindow sample then (wrapInt (acc.1 + sample.value), acc.2 + 1)
      else acc)
    (0, 0)

/-- The return of `getLoadAverage` (load.go:106), `float64(total / count)`: the
integer `total / count`, truncated as Go divides integers, which is then
converted to `float64`; `none` is the run-time panic of an integer division by
zero.  The counter cannot wrap, as it stays below the length of the slice. -/
def getLoadAverage {Time : Type} (inWindow : loadSample Time → Bool)
    (samples : List (loadSample Time)) : Option Int :=
  let tc := sumWindow inWindow samples
  if tc.2 = 0 then none else some (Int.tdiv tc.1 (tc.2 : Int))

/-- The samples of the window: those that pass the test of the loop. -/
def windowSamples {Time : Type} (inWindow : loadSample Time → Bool)
    (samples : List (loadSample Time)) : List (loadSample Time) :=
  samples.filter inWindow

/-- The arithmetic mean of the values of a list of samples. -/
def arithmeticMean {Time : Type} (samples : List (loadSample Time)) : ℚ :=
  ((samples.map (fun s => s.value)).sum : ℚ) / (samples.length : ℚ)

/-! ## Tables and records for the worked cases of `sockets` -/

/-- Two socket records, the first with inode 555 and the second with inode 7. -/
def twoRecords : List InetDiagMsg :=
  [{ State := 10, RQueue := 0, WQueue := 0, SrcIP := [127, 0, 0, 1], SrcPort := 80,
     DstIP := [0, 0, 0, 0], DstPort := 0, UID := 0, Inode := 555 },
   { State := 1, RQueue := 0, WQueue := 0, SrcIP := [127, 0, 0, 1], SrcPort := 80,
     DstIP := [10, 0, 0, 9], DstPort := 4711, UID := 1000, Inode := 7 }]

/-- The flags of a plain call: IPv4, the versioned request, no dump file. -/
def plainFlags : Flags :=
  { ipv6 := false, v1 := false, diag := "", diagOpenError := none }

/-! ## Lemmas on maps and on the two loops of the resolver -/

theorem lookup_filter_ne (m : GoMap) (k k' : Nat) (h : k' ≠ k) :
    List.lookup k' (m.filter (fun e => e.1 != k)) = List.lookup k' m := by
  induction m with
  | nil => rfl
  | cons e m ih =>
    obtain ⟨a, b⟩ := e
    by_cases hak : a = k
    · subst hak
      have hk : (k' == a) = false := by simpa using h
      simp [List.filter_cons, List.lookup_cons, hk, ih]
    · have hne : (a != k) = true := by simpa using hak
      simp only [List.filter_cons, hne, if_true, List.lookup_cons, ih]

theorem GoMap.get_set (m : GoMap) (k k' : Nat) (v : String) :
    (m.set k v).get k' = if k' = k then some v else m.get k' := by
  unfold GoMap.set GoMap.get
  by_cases h : k' = k
  · subst h
    simp [List.lookup_cons]
  · have hk : (k' == k) = false := by simpa using h
    simp [List.lookup_cons, hk, h, lookup_filter_ne m k k' h]

theorem get_fdStep (fs : ProcFS) (pid : String) (ret : GoMap) (fd : String) (k : Nat) :
    (fdStep fs pid ret fd).get k =
      if linkInode fs pid fd = some k then some pid else ret.get k := by
  unfold fdStep linkInode
  cases fs.readlink ("/proc/" ++ pid ++ "/fd/" ++ fd) with
  | none => simp
  | some link =>
    dsimp only
    generalize sscanfSocket link.toList = r
    cases r with
    | none => simp
    | some inode =>
      simp only [GoMap.get_set, Option.some.injEq]
      by_cases hk : k = inode
      · simp [hk]
      · have : ¬ inode = k := fun e => hk e.symm
        simp [hk, this]

theorem get_foldl_fdStep (fs : ProcFS) (pid : String) (fds : List String) (ret : GoMap)
    (k : Nat) :
    (fds.foldl (fdStep fs pid) ret).get k =
      if fds.any (fun fd => linkInode fs pid fd == some k) then some pid else ret.get k := by
  induction fds generalizing ret with
  | nil => simp
  | cons fd rest ih =>
    rw [List.foldl_cons, ih, get_fdStep]
    by_cases h1 : linkInode fs pid fd = some k
    · simp [h1]
    · simp [h1]

theorem ret_pidStep (fs : ProcFS) (st : ScanState) (pid : String) (k : Nat) :
    (pidStep fs st pid).ret.get k =
      if holdsInode fs k pid then some pid else st.ret.get k := by
  unfold pidStep holdsInode isCandidate fdDirReadable
  cases parseUint pid.toList 32 with
  | error e => simp
  | ok v =>
    by_cases ho : fs.openOk (fdDirPath pid) = true
    · by_cases hf : (fs.readdirnames (fdDirPath pid)).failed = true
      · simp [ho, hf]
      · simp only [ho, hf, if_true, Bool.true_and, Bool.not_false, Bool.and_true]
        simp only [Bool.false_eq_true, if_false]
        rw [get_foldl_fdStep]
    · simp [ho]

theorem get_foldl_pidStep (fs : ProcFS) (names : List String) (st : ScanState) (k : Nat) :
    (names.foldl (pidStep fs) st).ret.get k =
      match (names.filter (holdsInode fs k)).getLast? with
      | some p => some p
      | none => st.ret.get k := by
  induction names generalizing st with
  | nil => simp
  | cons p rest ih =>
    rw [List.foldl_cons, ih, ret_pidStep]
    by_cases hp : holdsInode fs k p = true
    · simp only [List.filter_cons, hp, if_true]
      cases hr : rest.filter (holdsInode fs k) with
      | nil => simp
      | cons q l =>
        rw [List.getLast?_cons_cons]
        cases hq : (q :: l).getLast? with
        | none => simp at hq
        | some z => simp
    · simp only [List.filter_cons, hp]
      simp

theorem mapInodesToPid_eq_foldl (fs : ProcFS) :
    mapInodesToPid fs =
      ((dirContents fs).foldl (pidStep fs)
        { ret := [], handles := if fs.openOk "/proc" then "/proc" :: [] else [],
          attempts := ["/proc"] }).ret := rfl

theorem get_mapInodesToPid (fs : ProcFS) (k : Nat) :
    (mapInodesToPid fs).get k = ((dirContents fs).filter (holdsInode fs k)).getLast? := by
  rw [mapInodesToPid_eq_foldl, get_foldl_pidStep]
  cases ((dirContents fs).filter (holdsInode fs k)).getLast? with
  | none => rfl
  | some p => rfl

/-! ## Lemmas on `ParseUint` -/

theorem le_digitsValue (cs : List Char) (acc : Nat) : acc ≤ digitsValue acc cs := by
  induction cs generalizing acc with
  | nil => simp [digitsValue]
  | cons c cs ih =>
    have h := ih (acc * 10 + (c.toNat - 48))
    simp only [digitsValue, List.foldl_cons] at h ⊢
    omega

theorem digitsValue_cons (c : Char) (cs : List Char) (acc : Nat) :
    digitsValue acc (c :: cs) = digitsValue (acc * 10 + (c.toNat - 48)) cs := rfl

theorem cutoff10_eq : cutoff10 = 1844674407370955162 := by
  norm_num [cutoff10]

theorem parseUintLoop_ok (maxVal : Nat) (hmax : maxVal < 2 ^ 64) (cs : List Char)
    (n v : Nat) (hn : n ≤ maxVal) :
    parseUintLoop maxVal cs n = .ok v ↔
      (∀ c ∈ cs, isDecDigit c = true) ∧ digitsValue n cs = v ∧ v ≤ maxVal := by
  induction cs generalizing n with
  | nil =>
    simp only [parseUintLoop, Except.ok.injEq, List.not_mem_nil, false_implies, implies_true,
      true_and, digitsValue, List.foldl_nil]
    constructor
    · intro h; subst h; exact ⟨rfl, hn⟩
    · intro h; exact h.1
  | cons c cs ih =>
    have hmono := le_digitsValue cs (n * 10 + (c.toNat - 48))
    rw [parseUintLoop, digitsValue_cons]
    by_cases hd : 48 ≤ c.toNat ∧ c.toNat ≤ 57
    · have hdig : isDecDigit c = true := by simp [isDecDigit, hd]
      rw [if_pos hd]
      by_cases hc : n ≥ cutoff10
      · rw [if_pos hc]
        rw [cutoff10_eq] at hc
        constructor
        · intro h; cases h
        · rintro ⟨_, h1, h2⟩
          exfalso
          norm_num at hmax
          omega
      · rw [if_neg hc]
        rw [cutoff10_eq] at hc
        have h10 : (n * 10) % 2 ^ 64 = n * 10 := by
          apply Nat.mod_eq_of_lt
          norm_num
          omega
        simp only [h10]
        by_cases hov : n * 10 + (c.toNat - 48) < 2 ^ 64
        · have h1 : (n * 10 + (c.toNat - 48)) % 2 ^ 64 = n * 10 + (c.toNat - 48) :=
            Nat.mod_eq_of_lt hov
          simp only [h1]
          by_cases hbig : n * 10 + (c.toNat - 48) > maxVal
          · rw [if_pos (Or.inr hbig)]
            constructor
            · intro h; cases h
            · rintro ⟨_, h1, h2⟩
              omega
          · have hno : ¬ (n * 10 + (c.toNat - 48) < n * 10 ∨ n * 10 + (c.toNat - 48) > maxVal) := by
              omega
            rw [if_neg hno, ih _ (by omega)]
            simp [hdig]
        · have hlt : (n * 10 + (c.toNat - 48)) % 2 ^ 64 < n * 10 := by
            norm_num at hov ⊢
            omega
          rw [if_pos (Or.inl hlt)]
          constructor
          · intro h; cases h
          · rintro ⟨_, h1, h2⟩
            norm_num at hov hmax
            omega
    · rw [if_neg hd]
      constructor
      · intro h; cases h
      · rintro ⟨h, _⟩
        have := h c (List.mem_cons_self _ _)
        simp [isDecDigit] at this
        exact absurd this hd

theorem parseUint_ok (s : List Char) (bitSize : Nat) (hb : bitSize ≤ 64) (v : Nat) :
    parseUint s bitSize = .ok v ↔
      s ≠ [] ∧ (∀ c ∈ s, isDecDigit c = true) ∧ digitsValue 0 s = v ∧ v < 2 ^ bitSize := by
  have hpos : 0 < 2 ^ bitSize := Nat.two_pow_pos bitSize
  have hle : 2 ^ bitSize ≤ 2 ^ 64 := Nat.pow_le_pow_right (by decide) hb
  unfold parseUint
  by_cases hs : s = []
  · simp [hs]
  · rw [if_neg hs, parseUintLoop_ok _ (by omega) s 0 v (Nat.zero_le _)]
    constructor
    · rintro ⟨h1, h2, h3⟩; exact ⟨hs, h1, h2, by omega⟩
    · rintro ⟨_, h1, h2, h3⟩; exact ⟨h1, h2, by omega⟩

/-! ## Lemmas on the scanner behind `Sscanf` -/

theorem advance_eq_some (f inp r : List Char) : advance f inp = some r ↔ inp = f ++ r := by
  induction f generalizing inp with
  | nil => simp [advance, eq_comm]
  | cons a f ih =>
    cases inp with
    | nil => simp [advance]
    | cons c cs =>
      rw [advance]
      by_cases hac : a = c
      · subst hac
        simp [ih]
      · have : ¬ c = a := fun e => hac e.symm
        simp [hac, this]

theorem newline_isSpace (c : Char) (h : c.toNat = 10) : goIsSpace c = true := by
  simp [goIsSpace, h]

theorem skipSpace_of_head (r : List Char) (h : ∀ c, r.head? = some c → goIsSpace c = false) :
    skipSpace r = some r := by
  cases r with
  | nil => rfl
  | cons c cs =>
    have hc := h c rfl
    have h10 : ¬ c.toNat = 10 := fun e => by
      rw [newline_isSpace c e] at hc; cases hc
    have h13 : ¬ c.toNat = 13 := fun e => by
      have : goIsSpace c = true := by simp [goIsSpace, e]
      rw [this] at hc; cases hc
    simp [skipSpace, h10, h13, hc]

theorem skipSpace_eq_some (inp r : List Char) :
    skipSpace inp = some r ↔
      ∃ ws, inp = ws ++ r ∧ (∀ c ∈ ws, goIsSpace c = true ∧ c.toNat ≠ 10) ∧
        (∀ c, r.head? = some c → goIsSpace c = false) := by
  induction inp with
  | nil =>
    simp only [skipSpace, Option.some.injEq]
    constructor
    · intro h; subst h; exact ⟨[], rfl, by simp, by simp⟩
    · rintro ⟨ws, h, _, _⟩
      have := List.append_eq_nil.mp h.symm
      exact this.2.symm
  | cons c cs ih =>
    have step : (goIsSpace c = true ∧ c.toNat ≠ 10) →
        ((skipSpace cs = some r) ↔
          ∃ ws, c :: cs = ws ++ r ∧ (∀ x ∈ ws, goIsSpace x = true ∧ x.toNat ≠ 10) ∧
            (∀ x, r.head? = some x → goIsSpace x = false)) := by
      intro hc
      rw [ih]
      constructor
      · rintro ⟨ws, h1, h2, h3⟩
        refine ⟨c :: ws, by simp [h1], ?_, h3⟩
        intro x hx
        rcases List.mem_cons.mp hx with e | e
        · subst e; exact hc
        · exact h2 x e
      · rintro ⟨ws, h1, h2, h3⟩
        cases ws with
        | nil =>
          simp only [List.nil_append] at h1
          subst h1
          have := h3 c rfl
          rw [hc.1] at this; cases this
        | cons w ws =>
          simp only [List.cons_append, List.cons.injEq] at h1
          exact ⟨ws, h1.2, fun x hx => h2 x (List.mem_cons_of_mem _ hx), h3⟩
    rw [skipSpace]
    by_cases h13 : c.toNat = 13 ∧ cs.head? = some (Char.ofNat 10)
    · rw [if_pos h13]
      exact step ⟨by simp [goIsSpace, h13.1], by omega⟩
    · rw [if_neg h13]
      by_cases h10 : c.toNat = 10
      · rw [if_pos h10]
        constructor
        · intro h; cases h
        · rintro ⟨ws, h1, h2, h3⟩
          exfalso
          cases ws with
          | nil =>
            simp only [List.nil_append] at h1
            subst h1
            have := h3 c rfl
            rw [newline_isSpace c h10] at this; cases this
          | cons w ws =>
            simp only [List.cons_append, List.cons.injEq] at h1
            have := (h2 w (List.mem_cons_self _ _)).2
            rw [← h1.1] at this
            exact this h10
      · rw [if_neg h10]
        by_cases hsp : goIsSpace c = true
        · rw [if_pos hsp]
          exact step ⟨hsp, h10⟩
        · rw [if_neg hsp]
          simp only [Option.some.injEq]
          constructor
          · intro h; subst h
            refine ⟨[], rfl, by simp, ?_⟩
            intro x hx
            simp only [List.head?_cons, Option.some.injEq] at hx
            subst hx
            simpa using hsp
          · rintro ⟨ws, h1, h2, h3⟩
            cases ws with
            | nil => simpa using h1
            | cons w ws =>
              simp only [List.cons_append, List.cons.injEq] at h1
              have := (h2 w (List.mem_cons_self _ _)).1
              rw [← h1.1] at this
              exact absurd this hsp

theorem takeWhile_append_stop {p : Char → Bool} (ds : List Char) (x : Char) (rest : List Char)
    (hds : ∀ c ∈ ds, p c = true) (hx : p x = false) :
    (ds ++ x :: rest).takeWhile p = ds ∧ (ds ++ x :: rest).dropWhile p = x :: rest := by
  induction ds with
  | nil => simp [List.takeWhile_cons, List.dropWhile_cons, hx]
  | cons d ds ih =>
    have hd := hds d (List.mem_cons_self _ _)
    have := ih (fun c hc => hds c (List.mem_cons_of_mem _ hc))
    simp [List.takeWhile_cons, List.dropWhile_cons, hd, this]

theorem isDecDigit_contains (c : Char) (h : isDecDigit c = true) :
    decimalDigits.contains c = true := by
  have hc : c = Char.ofNat c.toNat := (Char.ofNat_toNat c).symm
  simp only [isDecDigit, decide_eq_true_eq] at h
  obtain ⟨h1, h2⟩ := h
  generalize c.toNat = n at hc h1 h2
  interval_cases n <;> (subst hc; decide)

theorem isDecDigit_not_space (c : Char) (h : isDecDigit c = true) : goIsSpace c = false := by
  simp only [isDecDigit, decide_eq_true_eq] at h
  simp only [goIsSpace]
  have h1 := h.1
  have h2 := h.2
  simp
  omega

theorem truncate32 (i : Nat) (hi : i < 2 ^ 64) :
    ((i <<< (64 - 32)) % 2 ^ 64) >>> (64 - 32) = i ↔ i < 2 ^ 32 := by
  simp only [Nat.shiftLeft_eq, Nat.shiftRight_eq_div_pow]
  norm_num at hi ⊢
  omega

theorem scanUint_eq_some (inp rest : List Char) (i : Nat) :
    scanUint 32 inp = some (i, rest) ↔
      ∃ ws ds : List Char, inp = ws ++ ds ++ rest ∧
        (∀ c ∈ ws, goIsSpace c = true ∧ c.toNat ≠ 10) ∧
        ds ≠ [] ∧ (∀ c ∈ ds, isDecDigit c = true) ∧ digitsValue 0 ds = i ∧ i < 2 ^ 32 ∧
        (∀ c, rest.head? = some c → decimalDigits.contains c = false) := by
  constructor
  · intro h
    unfold scanUint at h
    cases h1 : skipSpace inp with
    | none => rw [h1] at h; cases h
    | some r1 =>
      rw [h1] at h
      dsimp only at h
      obtain ⟨ws, hws, hsp, _⟩ := (skipSpace_eq_some _ _).mp h1
      by_cases hr1 : r1 = []
      · rw [if_pos hr1] at h; cases h
      · rw [if_neg hr1] at h
        unfold scanNumber at h
        dsimp only at h
        by_cases htok : r1.takeWhile (fun c => decimalDigits.contains c) = []
        · rw [if_pos htok] at h; cases h
        · rw [if_neg htok] at h
          dsimp only at h
          cases hp : parseUint (r1.takeWhile (fun c => decimalDigits.contains c)) 64 with
          | error e => rw [hp] at h; cases h
          | ok v =>
            rw [hp] at h
            dsimp only at h
            obtain ⟨_, hdig, hval, hv64⟩ := (parseUint_ok _ 64 (le_refl _) v).mp hp
            by_cases hx : ((v <<< (64 - 32)) % 2 ^ 64) >>> (64 - 32) = v
            · rw [if_neg (not_not.mpr hx)] at h
              simp only [Option.some.injEq, Prod.mk.injEq] at h
              obtain ⟨hvi, hrest⟩ := h
              subst hvi
              refine ⟨ws, r1.takeWhile (fun c => decimalDigits.contains c), ?_, hsp,
                htok, hdig, hval, (truncate32 v hv64).mp hx, ?_⟩
              · rw [hws, ← hrest, List.append_assoc, List.takeWhile_append_dropWhile]
              · intro c hc
                rw [← hrest] at hc
                have := List.head?_dropWhile_not (fun c => decimalDigits.contains c) r1
                rw [hc] at this
                simpa using this
            · rw [if_pos hx] at h; cases h
  · rintro ⟨ws, ds, hinp, hsp, hne, hdig, hval, hlt, hstop⟩
    obtain ⟨d, ds', hds⟩ := List.exists_cons_of_ne_nil hne
    have hdd : isDecDigit d = true := hdig d (by rw [hds]; exact List.mem_cons_self _ _)
    have hskip : skipSpace inp = some (ds ++ rest) := by
      rw [skipSpace_eq_some]
      refine ⟨ws, by rw [hinp, List.append_assoc], hsp, ?_⟩
      intro c hc
      rw [hds] at hc
      simp only [List.cons_append, List.head?_cons, Option.some.injEq] at hc
      subst hc
      exact isDecDigit_not_space _ hdd
    have htake : (ds ++ rest).takeWhile (fun c => decimalDigits.contains c) = ds ∧
        (ds ++ rest).dropWhile (fun c => decimalDigits.contains c) = rest := by
      cases rest with
      | nil =>
        have hall : ∀ c ∈ ds, (fun c => decimalDigits.contains c) c = true :=
          fun c hc => isDecDigit_contains c (hdig c hc)
        simp only [List.append_nil]
        exact ⟨List.takeWhile_eq_self_iff.mpr hall, List.dropWhile_eq_nil_iff.mpr hall⟩
      | cons x rest =>
        exact takeWhile_append_stop ds x rest (fun c hc => isDecDigit_contains c (hdig c hc))
          (hstop x rfl)
    have hparse : parseUint ds 64 = .ok i :=
      (parseUint_ok ds 64 (le_refl _) i).mpr ⟨hne, hdig, hval, by
        have : (2 : Nat) ^ 32 ≤ 2 ^ 64 := by norm_num
        omega⟩
    have hi64 : i < 2 ^ 64 := by
      have : (2 : Nat) ^ 32 ≤ 2 ^ 64 := by norm_num
      omega
    have hx : ((i <<< (64 - 32)) % 2 ^ 64) >>> (64 - 32) = i := (truncate32 i hi64).mpr hlt
    have hne2 : ds ++ rest ≠ [] := by
      rw [hds]; simp
    unfold scanUint
    rw [hskip]
    dsimp only
    rw [if_neg hne2]
    unfold scanNumber
    dsimp only
    rw [htake.1, htake.2, if_neg hne]
    dsimp only
    rw [hparse]
    dsimp only
    rw [if_neg (not_not.mpr hx)]

theorem sscanfSocket_eq_some (t : List Char) (k : Nat) :
    sscanfSocket t = some k ↔ SocketLinkShape t k := by
  unfold SocketLinkShape
  constructor
  · intro h
    unfold sscanfSocket at h
    cases h1 : advance "socket:[".toList t with
    | none => rw [h1] at h; cases h
    | some r1 =>
      rw [h1] at h
      dsimp only at h
      cases h2 : skipSpace r1 with
      | none => rw [h2] at h; cases h
      | some r2 =>
        rw [h2] at h
        dsimp only at h
        cases h3 : scanUint 32 r2 with
        | none => rw [h3] at h; cases h
        | some res =>
          obtain ⟨i, r3⟩ := res
          rw [h3] at h
          dsimp only at h
          cases h4 : advance "]".toList r3 with
          | none => rw [h4] at h; cases h
          | some r4 =>
            rw [h4] at h
            dsimp only at h
            simp only [Option.some.injEq] at h
            subst h
            obtain ⟨ws1, hws1, hsp1, _⟩ := (skipSpace_eq_some _ _).mp h2
            obtain ⟨ws2, ds, hr2, hsp2, hne, hdig, hval, hlt, _⟩ :=
              (scanUint_eq_some _ _ _).mp h3
            refine ⟨ws1 ++ ws2, ds, r4, ?_, ?_, hne, hdig, hval, hlt⟩
            · rw [(advance_eq_some _ _ _).mp h1, hws1, hr2, (advance_eq_some _ _ _).mp h4]
              simp only [List.append_assoc]
            · intro c hc
              rcases List.mem_append.mp hc with e | e
              · exact hsp1 c e
              · exact hsp2 c e
  · rintro ⟨ws, ds, rest, ht, hsp, hne, hdig, hval, hlt⟩
    obtain ⟨d, ds', hds⟩ := List.exists_cons_of_ne_nil hne
    have hdd : isDecDigit d = true := hdig d (by rw [hds]; exact List.mem_cons_self _ _)
    have h1 : advance "socket:[".toList t = some (ws ++ (ds ++ ("]".toList ++ rest))) := by
      rw [advance_eq_some, ht]
      simp only [List.append_assoc]
    have h2 : skipSpace (ws ++ (ds ++ ("]".toList ++ rest))) = some (ds ++ ("]".toList ++ rest)) := by
      rw [skipSpace_eq_some]
      refine ⟨ws, rfl, hsp, ?_⟩
      intro c hc
      rw [hds] at hc
      simp only [List.cons_append, List.head?_cons, Option.some.injEq] at hc
      subst hc
      exact isDecDigit_not_space _ hdd
    have h3 : scanUint 32 (ds ++ ("]".toList ++ rest)) = some (k, "]".toList ++ rest) := by
      rw [scanUint_eq_some]
      refine ⟨[], ds, by simp, by simp, hne, hdig, hval, hlt, ?_⟩
      intro c hc
      have : c = Char.ofNat 93 := by
        simpa [eq_comm] using hc
      subst this
      decide
    have h4 : advance "]".toList ("]".toList ++ rest) = some rest := by
      rw [advance_eq_some]
    unfold sscanfSocket
    rw [h1]
    dsimp only
    rw [h2]
    dsimp only
    rw [h3]
    dsimp only
    rw [h4]

/-! ## Lemmas on the state threaded through the outer loop -/

theorem fdDirPath_ne_proc (pid : String) : fdDirPath pid ≠ "/proc" := by
  intro h
  have hl := congrArg String.length h
  simp only [fdDirPath, String.length_append] at hl
  have h1 : "/proc/".length = 6 := by decide
  have h2 : "/fd/".length = 4 := by decide
  have h3 : "/proc".length = 5 := by decide
  omega

theorem fdDirPath_injective (a b : String) (h : fdDirPath a = fdDirPath b) : a = b := by
  have hd := congrArg String.data h
  simp only [fdDirPath, String.data_append] at hd
  exact String.ext (List.append_cancel_left (List.append_cancel_right hd))

theorem ret_pidStep_eq (fs : ProcFS) (st : ScanState) (pid : String) :
    (pidStep fs st pid).ret = retStep fs st.ret pid := by
  unfold pidStep retStep isCandidate fdDirReadable
  cases parseUint pid.toList 32 with
  | error e => simp
  | ok v =>
    by_cases ho : fs.openOk (fdDirPath pid) = true
    · by_cases hf : (fs.readdirnames (fdDirPath pid)).failed = true
      · simp [ho, hf]
      · simp [ho, hf]
    · simp [ho]

theorem ret_foldl_pidStep (fs : ProcFS) (names : List String) (st : ScanState) :
    (names.foldl (pidStep fs) st).ret = names.foldl (retStep fs) st.ret := by
  induction names generalizing st with
  | nil => rfl
  | cons p rest ih => rw [List.foldl_cons, ih, ret_pidStep_eq, List.foldl_cons]

theorem mapInodesToPid_eq_retStep (fs : ProcFS) :
    mapInodesToPid fs = (dirContents fs).foldl (retStep fs) [] := by
  rw [mapInodesToPid_eq_foldl, ret_foldl_pidStep]

theorem attempts_pidStep (fs : ProcFS) (st : ScanState) (pid : String) :
    (pidStep fs st pid).attempts =
      st.attempts ++ (if isCandidate pid then [fdDirPath pid] else []) := by
  unfold pidStep isCandidate
  cases parseUint pid.toList 32 with
  | error e => simp
  | ok v =>
    by_cases ho : fs.openOk (fdDirPath pid) = true
    · by_cases hf : (fs.readdirnames (fdDirPath pid)).failed = true
      · simp [ho, hf]
      · simp [ho, hf]
    · simp [ho]

theorem attempts_foldl_pidStep (fs : ProcFS) (names : List String) (st : ScanState) :
    (names.foldl (pidStep fs) st).attempts =
      st.attempts ++ (names.filter isCandidate).map fdDirPath := by
  induction names generalizing st with
  | nil => simp
  | cons p rest ih =>
    rw [List.foldl_cons, ih, attempts_pidStep]
    by_cases hp : isCandidate p = true
    · simp [hp, List.filter_cons]
    · simp [hp, List.filter_cons]

theorem handles_pidStep (fs : ProcFS) (st : ScanState) (pid : String) :
    (pidStep fs st pid).handles =
      (if isCandidate pid && fs.openOk (fdDirPath pid) then [fdDirPath pid] else [])
        ++ st.handles := by
  unfold pidStep isCandidate
  cases parseUint pid.toList 32 with
  | error e => simp
  | ok v =>
    by_cases ho : fs.openOk (fdDirPath pid) = true
    · by_cases hf : (fs.readdirnames (fdDirPath pid)).failed = true
      · simp [ho, hf]
      · simp [ho, hf]
    · simp [ho]

theorem handles_foldl_pidStep (fs : ProcFS) (names : List String) (st : ScanState) :
    (names.foldl (pidStep fs) st).handles =
      ((names.filter (fun p => isCandidate p && fs.openOk (fdDirPath p))).map fdDirPath).reverse
        ++ st.handles := by
  induction names generalizing st with
  | nil => simp
  | cons p rest ih =>
    rw [List.foldl_cons, ih, handles_pidStep]
    by_cases hp : (isCandidate p && fs.openOk (fdDirPath p)) = true
    · simp [hp, List.filter_cons]
    · simp [hp, List.filter_cons]

theorem foldl_fdStep_filter (fs : ProcFS) (pid : String) (fds : List String) (ret : GoMap) :
    (fds.filter (fun fd => (fs.readlink (fdDirPath pid ++ fd)).isSome)).foldl (fdStep fs pid) ret
      = fds.foldl (fdStep fs pid) ret := by
  induction fds generalizing ret with
  | nil => rfl
  | cons fd rest ih =>
    cases h : fs.readlink (fdDirPath pid ++ fd) with
    | none =>
      have hstep : fdStep fs pid ret fd = ret := by
        unfold fdStep
        unfold fdDirPath at h
        rw [h]
      simp only [List.filter_cons, h, Option.isSome_none, Bool.false_eq_true, if_false,
        List.foldl_cons, hstep]
      exact ih ret
    | some link =>
      simp only [List.filter_cons, h, Option.isSome_some, if_true, List.foldl_cons]
      exact ih _

theorem fdDirReadable_pruneFailures (fs : ProcFS) (pid : String) :
    fdDirReadable (pruneFailures fs) pid = fdDirReadable fs pid := by
  unfold fdDirReadable pruneFailures
  simp [fdDirPath_ne_proc]

theorem retStep_pruneFailures (fs : ProcFS) (ret : GoMap) (pid : String) :
    retStep (pruneFailures fs) ret pid = retStep fs ret pid := by
  unfold retStep
  rw [fdDirReadable_pruneFailures]
  by_cases h : (isCandidate pid && fdDirReadable fs pid) = true
  · rw [if_pos h, if_pos h]
    have hn : ((pruneFailures fs).readdirnames (fdDirPath pid)).names =
        (fs.readdirnames (fdDirPath pid)).names.filter
          (fun fd => (fs.readlink (fdDirPath pid ++ fd)).isSome) := by
      simp [pruneFailures, fdDirPath_ne_proc]
    rw [hn]
    exact foldl_fdStep_filter fs pid _ ret
  · rw [if_neg h, if_neg h]

theorem foldl_retStep_filter (fs : ProcFS) (keep : String → Bool) (names : List String)
    (ret : GoMap) (hkeep : ∀ pid r, keep pid = false → retStep fs r pid = r) :
    (names.filter keep).foldl (retStep fs) ret = names.foldl (retStep fs) ret := by
  induction names generalizing ret with
  | nil => rfl
  | cons p rest ih =>
    cases h : keep p with
    | false =>
      simp only [List.filter_cons, h, Bool.false_eq_true, if_false, List.foldl_cons,
        hkeep p ret h]
      exact ih ret
    | true =>
      simp only [List.filter_cons, h, if_true, List.foldl_cons]
      exact ih _

theorem foldl_retStep_congr (fs fs' : ProcFS) (names : List String) (ret : GoMap)
    (h : ∀ r pid, retStep fs' r pid = retStep fs r pid) :
    names.foldl (retStep fs') ret = names.foldl (retStep fs) ret := by
  have : retStep fs' = retStep fs := by
    funext r pid; exact h r pid
  rw [this]

theorem dirContents_pruneFailures (fs : ProcFS) :
    dirContents (pruneFailures fs) =
      (dirContents fs).filter (fun pid => !isCandidate pid || fdDirReadable fs pid) := by
  unfold dirContents
  by_cases h : fs.openOk "/proc" = true
  · simp [pruneFailures, h]
  · simp [pruneFailures, h]

theorem dirContents_dropNonCandidates (fs : ProcFS) :
    dirContents (dropNonCandidates fs) = (dirContents fs).filter isCandidate := by
  unfold dirContents
  by_cases h : fs.openOk "/proc" = true
  · simp [dropNonCandidates, h]
  · simp [dropNonCandidates, h]

theorem retStep_dropNonCandidates (fs : ProcFS) (ret : GoMap) (pid : String) :
    retStep (dropNonCandidates fs) ret pid = retStep fs ret pid := by
  unfold retStep fdDirReadable
  simp [dropNonCandidates, fdDirPath_ne_proc, fdStep]
  rfl

theorem mapInodesToPid_oneLinkTable (t : String) :
    mapInodesToPid (oneLinkTable t) =
      match sscanfSocket t.toList with
      | some k => [(k, "1")]
      | none => [] := by
  have hc : isCandidate "1" = true := by decide
  rw [mapInodesToPid_eq_retStep]
  have hd : dirContents (oneLinkTable t) = ["1"] := by
    simp [dirContents, oneLinkTable]
  have hr : fdDirReadable (oneLinkTable t) "1" = true := by
    simp [fdDirReadable, oneLinkTable, fdDirPath_ne_proc]
  have hn : ((oneLinkTable t).readdirnames (fdDirPath "1")).names = ["3"] := by
    simp [oneLinkTable, fdDirPath_ne_proc]
  rw [hd]
  simp only [List.foldl_cons, List.foldl_nil, retStep, hc, hr, Bool.and_self, if_true, hn]
  unfold fdStep
  have hl : (oneLinkTable t).readlink ("/proc/" ++ "1" ++ "/fd/" ++ "3") = some t := rfl
  rw [hl]
  dsimp only
  cases sscanfSocket t.toList with
  | none => rfl
  | some k => rfl

theorem socketForm_shape (t : List Char) (k : Nat) (h : socketForm t = some k) :
    SocketLinkShape t k := by
  unfold socketForm at h
  cases h1 : advance "socket:[".toList t with
  | none => rw [h1] at h; cases h
  | some r =>
    rw [h1] at h
    dsimp only at h
    by_cases hc : r.takeWhile isDecDigit ≠ [] ∧ r.dropWhile isDecDigit = "]".toList ∧
        digitsValue 0 (r.takeWhile isDecDigit) < 2 ^ 32
    · rw [if_pos hc] at h
      simp only [Option.some.injEq] at h
      obtain ⟨hne, hdrop, hlt⟩ := hc
      refine ⟨[], r.takeWhile isDecDigit, [], ?_, by simp, hne, ?_, h, by rw [← h]; exact hlt⟩
      · rw [(advance_eq_some _ _ _).mp h1]
        have := List.takeWhile_append_dropWhile isDecDigit r
        rw [hdrop] at this
        simp only [List.append_nil, List.append_assoc]
        rw [this]
      · intro c hc
        exact (List.mem_takeWhile_imp hc)
    · rw [if_neg hc] at h; cases h

/-! ## The claims -/

/-- C1: the keys of the map returned by `mapInodesToPid` are exactly the inodes
named by a socket link among the descriptors of the scanned processes, every
key is mapped to the name of a listed process that holds such a link, and on the
table where process `100` holds `socket:[555]` and process `200` holds no
socket the result is exactly `{555: "100"}`. -/
theorem mapInodesToPid_key_set (fs : ProcFS) :
    (∀ k : Nat, (∃ v, (mapInodesToPid fs).get k = some v) ↔
        ∃ pid ∈ dirContents fs, holdsInode fs k pid = true) ∧
    (∀ (k : Nat) (v : String), (mapInodesToPid fs).get k = some v →
        v ∈ dirContents fs ∧ holdsInode fs k v = true) ∧
    mapInodesToPid exampleTable = [(555, "100")] := by
  have hval : ∀ (k : Nat) (v : String), (mapInodesToPid fs).get k = some v →
      v ∈ dirContents fs ∧ holdsInode fs k v = true := by
    intro k v h
    rw [get_mapInodesToPid] at h
    have := List.mem_of_getLast?_eq_some h
    rw [List.mem_filter] at this
    exact this
  refine ⟨?_, hval, by decide⟩
  intro k
  constructor
  · rintro ⟨v, h⟩
    exact ⟨v, hval k v h⟩
  · rintro ⟨pid, hmem, hholds⟩
    rw [get_mapInodesToPid]
    have hne : (dirContents fs).filter (holdsInode fs k) ≠ [] := by
      intro e
      have : pid ∈ (dirContents fs).filter (holdsInode fs k) :=
        List.mem_filter.mpr ⟨hmem, hholds⟩
      rw [e] at this
      cases this
    cases h : ((dirContents fs).filter (holdsInode fs k)).getLast? with
    | none => exact absurd (List.getLast?_eq_none_iff.mp h) hne
    | some v => exact ⟨v, rfl⟩

/-- C2: failures below one process or one descriptor never end the scan:
`mapInodesToPid` returns the same map as on the table from which every process
whose descriptor directory fails to open or to list and every descriptor whose
link fails to resolve has been deleted, and every socket link of a process that
remains has its inode among the keys of the result. -/
theorem mapInodesToPid_pruneFailures (fs : ProcFS) :
    mapInodesToPid fs = mapInodesToPid (pruneFailures fs) ∧
    (∀ pid ∈ dirContents (pruneFailures fs), isCandidate pid = true →
      ∀ fd ∈ ((pruneFailures fs).readdirnames (fdDirPath pid)).names,
        ∀ k, linkInode fs pid fd = some k → ∃ v, (mapInodesToPid fs).get k = some v) := by
  constructor
  · rw [mapInodesToPid_eq_retStep, mapInodesToPid_eq_retStep, dirContents_pruneFailures,
      foldl_retStep_congr fs (pruneFailures fs) _ _ (retStep_pruneFailures fs)]
    symm
    apply foldl_retStep_filter
    intro pid r hk
    unfold retStep
    have : (isCandidate pid && fdDirReadable fs pid) = false := by
      cases h1 : isCandidate pid <;> cases h2 : fdDirReadable fs pid <;> simp_all
    rw [this]
    rfl
  · intro pid hpid hcand fd hfd k hk
    rw [dirContents_pruneFailures, List.mem_filter] at hpid
    obtain ⟨hmem, hkeep⟩ := hpid
    have hread : fdDirReadable fs pid = true := by
      simpa [hcand] using hkeep
    have hfd2 : fd ∈ (fs.readdirnames (fdDirPath pid)).names := by
      have hn : ((pruneFailures fs).readdirnames (fdDirPath pid)).names =
          (fs.readdirnames (fdDirPath pid)).names.filter
            (fun fd => (fs.readlink (fdDirPath pid ++ fd)).isSome) := by
        simp [pruneFailures, fdDirPath_ne_proc]
      rw [hn] at hfd
      exact (List.mem_filter.mp hfd).1
    have hholds : holdsInode fs k pid = true := by
      unfold holdsInode
      rw [hcand, hread]
      simp only [Bool.and_self, Bool.true_and, List.any_eq_true]
      exact ⟨fd, hfd2, by simp [hk]⟩
    rw [get_mapInodesToPid]
    cases h : ((dirContents fs).filter (holdsInode fs k)).getLast? with
    | none =>
      have := List.getLast?_eq_none_iff.mp h
      have hin : pid ∈ (dirContents fs).filter (holdsInode fs k) :=
        List.mem_filter.mpr ⟨hmem, hholds⟩
      rw [this] at hin
      cases hin
    | some v => exact ⟨v, rfl⟩

/-- C3: the index is last-writer-wins: when the scanned process `pid` holds a
socket link to inode `k` and no process listed after it does, the value stored
for `k` is `pid`, whichever processes listed before it hold `k` as well. -/
theorem mapInodesToPid_last_writer_wins (fs : ProcFS) (k : Nat) (before after : List String)
    (pid : String) (hlist : dirContents fs = before ++ pid :: after)
    (hpid : holdsInode fs k pid = true)
    (hafter : ∀ q ∈ after, holdsInode fs k q = false) :
    (mapInodesToPid fs).get k = some pid := by
  rw [get_mapInodesToPid, hlist, List.filter_append, List.filter_cons, if_pos hpid]
  have : after.filter (holdsInode fs k) = [] := by
    rw [List.filter_eq_nil_iff]
    intro q hq
    simp [hafter q hq]
  rw [this, List.getLast?_append]
  simp

/-- C3 on the table where `100` and `200` share inode 555 and `300`, listed
after them, does not hold it: `200` is stored. -/
theorem mapInodesToPid_last_writer_wins_witness :
    dirContents sharedTable = ["100"] ++ "200" :: ["300"] ∧
    holdsInode sharedTable 555 "100" = true ∧
    holdsInode sharedTable 555 "200" = true ∧
    (∀ q ∈ ["300"], holdsInode sharedTable 555 q = false) ∧
    (mapInodesToPid sharedTable).get 555 = some "200" :=
  ⟨by decide, by decide, by decide, by decide,
    mapInodesToPid_last_writer_wins sharedTable 555 ["100"] ["300"] "200" (by decide)
      (by decide) (by decide)⟩

/-- C4, as stated, fails: the target `socket:[555]x` is not of the form
`socket:[<decimal-inode>]`, yet inode 555 is recorded for it; so is it for
`socket:[ 555]`. -/
theorem mapInodesToPid_link_form_counterexample :
    socketForm "socket:[555]x".toList = none ∧
    mapInodesToPid (oneLinkTable "socket:[555]x") = [(555, "1")] ∧
    socketForm "socket:[ 555]".toList = none ∧
    mapInodesToPid (oneLinkTable "socket:[ 555]") = [(555, "1")] := by
  decide

/-- C4, amended: for the link target `t` of the single descriptor of a process,
`mapInodesToPid` records inode `k` exactly when `t` begins with `socket:[`,
then any blanks other than a newline, then a non-empty run of decimal digits
worth `k < 2 ^ 32`, then `]`, whatever follows the bracket; every other target
records nothing; and every target of the form `socket:[<decimal-inode>]` with a
32-bit inode is recorded with that inode. -/
theorem mapInodesToPid_link_shape (t : String) :
    (∀ k : Nat, mapInodesToPid (oneLinkTable t) = [(k, "1")] ↔ SocketLinkShape t.toList k) ∧
    (mapInodesToPid (oneLinkTable t) = [] ↔ ¬ ∃ k, SocketLinkShape t.toList k) ∧
    (∀ k : Nat, socketForm t.toList = some k →
      mapInodesToPid (oneLinkTable t) = [(k, "1")]) := by
  have hiff : ∀ k : Nat, mapInodesToPid (oneLinkTable t) = [(k, "1")] ↔
      SocketLinkShape t.toList k := by
    intro k
    rw [mapInodesToPid_oneLinkTable, ← sscanfSocket_eq_some]
    cases sscanfSocket t.toList with
    | none => simp
    | some j => simp
  refine ⟨hiff, ?_, ?_⟩
  · rw [mapInodesToPid_oneLinkTable]
    constructor
    · intro h
      rintro ⟨k, hk⟩
      rw [← sscanfSocket_eq_some] at hk
      rw [hk] at h
      cases h
    · intro h
      cases hs : sscanfSocket t.toList with
      | none => rfl
      | some k => exact absurd ⟨k, (sscanfSocket_eq_some _ _).mp hs⟩ h
  · intro k hk
    exact (hiff k).mpr (socketForm_shape _ _ hk)

/-- C5, as stated, fails: the entry `4294967296` is listed under `/proc`, its
name is an unsigned integer in decimal, which `ParseUint` accepts at 64 bits,
and it holds a link to socket 666; yet its descriptor directory is never opened
and 666 is not in the result. -/
theorem mapInodesToPid_wide_name_counterexample :
    wideNameTable.openOk "/proc" = true ∧
    "4294967296" ∈ (wideNameTable.readdirnames "/proc").names ∧
    isUnsignedNumeral "4294967296" = true ∧
    (∃ v, parseUint "4294967296".toList 64 = .ok v) ∧
    linkInode wideNameTable "4294967296" "3" = some 666 ∧
    fdDirPath "4294967296" ∉ (mapInodesToPidFrom wideNameTable []).attempts ∧
    (mapInodesToPid wideNameTable).get 666 = none := by
  refine ⟨by decide, by decide, by decide, ⟨4294967296, rfl⟩, by decide, by decide, by decide⟩

/-- C5, amended: the candidate process identifiers are exactly the entries
listed under `/proc` whose names parse as unsigned 32-bit integers in decimal,
that is, the non-empty runs of decimal digits worth less than `2 ^ 32`.  The
descriptor directory of a listed entry is opened if and only if its name is
one; every socket link found in a readable descriptor directory of such an
entry has its inode recorded; every value of the result is such an entry; and
the entries with any other name can be deleted from the table without changing
the result.  On the table listing `self`, `4294967296` and `4294967295` the
result is `{555: "4294967295"}`. -/
theorem mapInodesToPid_scans_candidates (fs : ProcFS) :
    (∀ name : String, fdDirPath name ∈ (mapInodesToPidFrom fs []).attempts ↔
        fs.openOk "/proc" = true ∧ name ∈ (fs.readdirnames "/proc").names ∧
          isCandidate name = true) ∧
    (∀ name : String, isCandidate name = true ↔
        name.toList ≠ [] ∧ (∀ c ∈ name.toList, isDecDigit c = true) ∧
          digitsValue 0 name.toList < 2 ^ 32) ∧
    (∀ (name fd : String) (k : Nat), fs.openOk "/proc" = true →
        name ∈ (fs.readdirnames "/proc").names → isCandidate name = true →
        fdDirReadable fs name = true → fd ∈ (fs.readdirnames (fdDirPath name)).names →
        linkInode fs name fd = some k → ∃ v, (mapInodesToPid fs).get k = some v) ∧
    (∀ (k : Nat) (v : String), (mapInodesToPid fs).get k = some v →
        fs.openOk "/proc" = true ∧ v ∈ (fs.readdirnames "/proc").names ∧
          isCandidate v = true ∧
          ∃ fd ∈ (fs.readdirnames (fdDirPath v)).names, linkInode fs v fd = some k) ∧
    mapInodesToPid fs = mapInodesToPid (dropNonCandidates fs) ∧
    mapInodesToPid wideNameTable = [(555, "4294967295")] ∧
    (mapInodesToPidFrom wideNameTable []).attempts = ["/proc", "/proc/4294967295/fd/"] := by
  have hmem : ∀ name : String, name ∈ dirContents fs ↔
      fs.openOk "/proc" = true ∧ name ∈ (fs.readdirnames "/proc").names := by
    intro name
    unfold dirContents
    by_cases h : fs.openOk "/proc" = true
    · simp [h]
    · simp [h]
  refine ⟨?_, ?_, ?_, ?_, ?_, by decide, by decide⟩
  · intro name
    have hatt : (mapInodesToPidFrom fs []).attempts =
        ["/proc"] ++ ((dirContents fs).filter isCandidate).map fdDirPath := by
      show ((dirContents fs).foldl (pidStep fs) _).attempts = _
      rw [attempts_foldl_pidStep]
    rw [hatt]
    constructor
    · intro h
      rcases List.mem_append.mp h with h | h
      · simp only [List.mem_singleton] at h
        exact absurd h (fdDirPath_ne_proc name)
      · obtain ⟨n, hn, he⟩ := List.mem_map.mp h
        have := fdDirPath_injective _ _ he
        subst this
        obtain ⟨h1, h2⟩ := List.mem_filter.mp hn
        exact ⟨((hmem n).mp h1).1, ((hmem n).mp h1).2, h2⟩
    · rintro ⟨h1, h2, h3⟩
      exact List.mem_append.mpr (Or.inr (List.mem_map.mpr
        ⟨name, List.mem_filter.mpr ⟨(hmem name).mpr ⟨h1, h2⟩, h3⟩, rfl⟩))
  · intro name
    unfold isCandidate
    cases h : parseUint name.toList 32 with
    | error e =>
      simp only [Bool.false_eq_true, false_iff]
      intro hc
      have := (parseUint_ok name.toList 32 (by decide) (digitsValue 0 name.toList)).mpr
        ⟨hc.1, hc.2.1, rfl, hc.2.2⟩
      rw [h] at this
      cases this
    | ok v =>
      simp only [true_iff]
      obtain ⟨h1, h2, h3, h4⟩ := (parseUint_ok name.toList 32 (by decide) v).mp h
      exact ⟨h1, h2, by rw [h3]; exact h4⟩
  · intro name fd k hroot hname hcand hread hfd hk
    have hholds : holdsInode fs k name = true := by
      unfold holdsInode
      rw [hcand, hread]
      simp only [Bool.and_self, Bool.true_and, List.any_eq_true]
      exact ⟨fd, hfd, by simp [hk]⟩
    rw [get_mapInodesToPid]
    cases h : ((dirContents fs).filter (holdsInode fs k)).getLast? with
    | none =>
      have := List.getLast?_eq_none_iff.mp h
      have hin : name ∈ (dirContents fs).filter (holdsInode fs k) :=
        List.mem_filter.mpr ⟨(hmem name).mpr ⟨hroot, hname⟩, hholds⟩
      rw [this] at hin
      cases hin
    | some v => exact ⟨v, rfl⟩
  · intro k v h
    rw [get_mapInodesToPid] at h
    have hv := List.mem_of_getLast?_eq_some h
    rw [List.mem_filter] at hv
    obtain ⟨hlisted, hholds⟩ := hv
    unfold holdsInode at hholds
    simp only [Bool.and_eq_true, List.any_eq_true, beq_iff_eq] at hholds
    obtain ⟨⟨hcand, _⟩, fd, hfd, hk⟩ := hholds
    exact ⟨((hmem v).mp hlisted).1, ((hmem v).mp hlisted).2, hcand, fd, hfd, hk⟩
  · rw [mapInodesToPid_eq_retStep, mapInodesToPid_eq_retStep, dirContents_dropNonCandidates,
      foldl_retStep_congr fs (dropNonCandidates fs) _ _ (retStep_dropNonCandidates fs)]
    symm
    apply foldl_retStep_filter
    intro pid r hk
    unfold retStep
    rw [hk]
    rfl

/-- C6 fails on the code: the handle on `/proc` is released, but every
descriptor directory that was opened stays open, so the open handles after the
call are those before it together with one per candidate process whose
descriptor directory opened; on the table with the processes `100` and `200`
two handles are left open. -/
theorem mapInodesToPid_leaks_fd_handles :
    (∀ (fs : ProcFS) (h0 : List String), (mapInodesToPidFrom fs h0).handles =
      (((dirContents fs).filter
          (fun p => isCandidate p && fs.openOk (fdDirPath p))).map fdDirPath).reverse ++ h0) ∧
    (mapInodesToPidFrom exampleTable []).handles = ["/proc/200/fd/", "/proc/100/fd/"] := by
  refine ⟨?_, by decide⟩
  intro fs h0
  have hfold : (mapInodesToPidFrom fs h0).handles =
      if fs.openOk "/proc" = true then
        (((dirContents fs).foldl (pidStep fs)
          { ret := [], handles := "/proc" :: h0, attempts := ["/proc"] }).handles).erase "/proc"
      else ((dirContents fs).foldl (pidStep fs)
          { ret := [], handles := h0, attempts := ["/proc"] }).handles := by
    unfold mapInodesToPidFrom
    by_cases h : fs.openOk "/proc" = true
    · simp [h]
    · simp [h]
  rw [hfold]
  by_cases h : fs.openOk "/proc" = true
  · rw [if_pos h, handles_foldl_pidStep]
    have hnot : "/proc" ∉ (((dirContents fs).filter
        (fun p => isCandidate p && fs.openOk (fdDirPath p))).map fdDirPath).reverse := by
      intro hm
      rw [List.mem_reverse] at hm
      obtain ⟨n, _, he⟩ := List.mem_map.mp hm
      exact fdDirPath_ne_proc n he
    rw [List.erase_append_right _ hnot, List.erase_cons_head]
  · rw [if_neg h, handles_foldl_pidStep]

/-- C7: when the dump file, if one is asked for, opens and the netlink
exchange returns the records `msgs`, `sockets` returns no error and hands the
tab writer the header followed by exactly one line per record, in reply order;
and for every index, a record whose inode is absent from it gets the empty
string as its owning-process cell. -/
theorem sockets_one_row_per_record (lx : LinuxPkg) (flags : Flags) (fs : ProcFS)
    (msgs : List InetDiagMsg)
    (hdump : flags.diag = "" ∨ flags.diagOpenError = none)
    (hreply : lx.netlinkInetDiagWithBuf
      (if flags.v1 then lx.newInetDiagReq
        else lx.newInetDiagReqV2 (if flags.ipv6 then AF_INET6 else AF_INET)) = .ok msgs) :
    sockets lx flags fs =
      (.ok (), headerLine :: msgs.map (rowLine lx (mapInodesToPid fs))) ∧
    ((sockets lx flags fs).2.drop 1).length = msgs.length ∧
    (∀ (index : GoMap) (d : InetDiagMsg), index.get d.Inode = none →
      (rowCells lx index d).getLast? = some "" ∧
      rowLine lx index d =
        String.intercalate "\t" ((rowCells lx index d).dropLast ++ [""]) ++ "\n") := by
  have hopen : (if flags.diag ≠ "" then flags.diagOpenError else none) = none := by
    rcases hdump with h | h
    · simp [h]
    · simp [h]
  have hs : sockets lx flags fs =
      (.ok (), headerLine :: msgs.map (rowLine lx (mapInodesToPid fs))) := by
    unfold sockets
    dsimp only
    rw [hopen]
    dsimp only
    rw [hreply]
  refine ⟨hs, ?_, ?_⟩
  · rw [hs]
    simp
  · intro index d hd
    have hidx : index.index d.Inode = "" := by
      unfold GoMap.index
      rw [hd]
      rfl
    constructor
    · simp [rowCells, hidx]
    · simp [rowLine, rowCells, hidx]

/-- C7 on two records, of which only the first has its inode in the index of
the example table. -/
theorem sockets_one_row_per_record_witness :
    (plainFlags.diag = "" ∨ plainFlags.diagOpenError = none) ∧
    (sampleLinux twoRecords).netlinkInetDiagWithBuf
      (if plainFlags.v1 then (sampleLinux twoRecords).newInetDiagReq
        else (sampleLinux twoRecords).newInetDiagReqV2
          (if plainFlags.ipv6 then AF_INET6 else AF_INET)) = .ok twoRecords ∧
    sockets (sampleLinux twoRecords) plainFlags exampleTable =
      (.ok (), headerLine :: twoRecords.map
        (rowLine (sampleLinux twoRecords) (mapInodesToPid exampleTable))) ∧
    twoRecords.map (rowLine (sampleLinux twoRecords) (mapInodesToPid exampleTable)) =
      ["LISTEN\t0\t0\t127.0.0.1:80\t0.0.0.0:0\t0\t555\t100\n",
       "ESTAB\t0\t0\t127.0.0.1:80\t10.0.0.9:4711\t1000\t7\t\n"] :=
  ⟨Or.inl rfl, rfl,
    (sockets_one_row_per_record (sampleLinux twoRecords) plainFlags exampleTable
      twoRecords (Or.inl rfl) rfl).1,
    by decide⟩

/-- C8 fails on the code: whatever the test of the loop is, when the samples
with the values 1 and 2 both pass it, `getLoadAverage` returns the integer
quotient 3 / 2 = 1, while the arithmetic mean of the samples of the window
is 3/2. -/
theorem getLoadAverage_truncates_mean {Time : Type} (inWindow : loadSample Time → Bool)
    (t1 t2 : Time)
    (h1 : inWindow { timestamp := t1, value := 1 } = true)
    (h2 : inWindow { timestamp := t2, value := 2 } = true) :
    getLoadAverage inWindow
      [{ timestamp := t1, value := 1 }, { timestamp := t2, value := 2 }] = some 1 ∧
    arithmeticMean (windowSamples inWindow
      [{ timestamp := t1, value := 1 }, { timestamp := t2, value := 2 }]) = 3 / 2 := by
  constructor
  · simp only [getLoadAverage, sumWindow, List.foldl_cons, List.foldl_nil, h1, h2, if_true]
    decide
  · simp only [windowSamples, List.filter_cons, h1, h2, if_true, List.filter_nil]
    norm_num [arithmeticMean]

/-- C8 with the test that lets every sample pass. -/
theorem getLoadAverage_truncates_mean_witness :
    getLoadAverage (fun _ : loadSample Nat => true)
      [{ timestamp := 0, value := 1 }, { timestamp := 1, value := 2 }] = some 1 ∧
    arithmeticMean (windowSamples (fun _ : loadSample Nat => true)
      [{ timestamp := 0, value := 1 }, { timestamp := 1, value := 2 }]) = 3 / 2 :=
  getLoadAverage_truncates_mean (fun _ : loadSample Nat => true) 0 1 rfl rfl

end Gosigar
